import Mathlib

/-!
Verification of the multi-source research-paper retrieval-and-ranking
pipeline (`streamlit_app.py`): three source adapters (Semantic Scholar,
arXiv, PubMed), an aggregation filter over abstract/year, a stable
descending sort by similarity, a regex keyword highlighter, and
per-function result caches.

Machine integers do not occur (Python ints are unbounded), so years and
similarity scores are modelled as `Int` and `ℚ`.  Network responses and
the black-box embedding model are inputs of the embedded functions:
an adapter takes the outcome of its HTTP call(s) (either a raised
exception or a response value) and is otherwise a faithful translation
of the adapter's body.
-/

/-- A paper record as produced by the adapters: a Python dict whose keys
`title`, `abstract`, `url`, `year` may each be absent or `None`
(both modelled as `none`; `p.get(k)` yields `None` in either case). -/
structure RawPaper where
  title : Option String := none
  abstract : Option String := none
  url : Option String := none
  year : Option Int := none
deriving DecidableEq, Repr

/-- The aggregation filter of `main` (line 160):
`p.get("abstract") and p.get("year") and start_year <= p["year"] <= end_year`.
Python truthiness: `None` and `""` are falsy for the abstract,
`None` and `0` are falsy for the year; short-circuiting means `p["year"]`
is only read once `p.get("year")` is truthy. -/
def keepPaper (start_year end_year : Int) (p : RawPaper) : Bool :=
  match p.abstract, p.year with
  | some a, some y => a ≠ "" && y ≠ 0 && start_year ≤ y && y ≤ end_year
  | _, _ => false

/-- `all_papers = ss_papers + arxiv_papers + pubmed_papers` followed by the
list-comprehension filter (lines 159-160 of `main`). -/
def aggregate (ss ax pm : List RawPaper) (start_year end_year : Int) : List RawPaper :=
  (ss ++ ax ++ pm).filter (keepPaper start_year end_year)

/-- One step of a stable insertion sort, descending by the first (similarity)
component: `x` goes in front of the first element whose key is ≤ its own,
so on ties the earlier input element stays first.  This models Python's
`list.sort(key=lambda x: x[0], reverse=True)`, which is documented to be
stable (also with `reverse=True`). -/
def insertDesc {α : Type} (x : ℚ × α) : List (ℚ × α) → List (ℚ × α)
  | [] => [x]
  | y :: ys => if y.1 ≤ x.1 then x :: y :: ys else y :: insertDesc x ys

/-- Stable descending sort by similarity (line 174 of `main`). -/
def sortDesc {α : Type} : List (ℚ × α) → List (ℚ × α)
  | [] => []
  | x :: xs => insertDesc x (sortDesc xs)

/-- The scored list built in lines 169-174 of `main`: each paper is paired
with its similarity (the cosine similarity of the query embedding and the
paper embedding, abstracted as a score function), then sorted descending. -/
def scoredList {α : Type} (sim : α → ℚ) (papers : List α) : List (ℚ × α) :=
  sortDesc (papers.map (fun p => (sim p, p)))

/-- An HTTP response as the adapters see it: a status code and a body whose
parse (`response.json()` / `ET.fromstring` plus the key accesses done on the
result) may itself raise — the body is the outcome of that parse. -/
structure HttpResp (β : Type) where
  status : Nat
  body : Except String β

/-- `response.raise_for_status()`: raises `HTTPError` for 4xx/5xx status. -/
def raise_for_status (status : Nat) : Except String Unit :=
  if 400 ≤ status && status < 600 then
    Except.error ("HTTPError: status " ++ toString status)
  else
    Except.ok ()

/-- The JSON body of a Semantic Scholar search response: `.get("data", [])`
reads a `data` key that may be absent. -/
structure SSJson where
  data : Option (List RawPaper)

/-- The `try` block of `search_semantic_scholar` (lines 75-78): GET (its
outcome is the argument), `raise_for_status`, parse the JSON, read `data`
with default `[]`. -/
def ss_body (resp : Except String (HttpResp SSJson)) : Except String (List RawPaper) := do
  let r ← resp
  raise_for_status r.status
  let j ← r.body
  pure (j.data.getD [])

/-- `search_semantic_scholar` (lines 71-81): the `try` block with
`except Exception: return []` at the adapter boundary (the `st.error`
diagnostic is presentation-layer). -/
def search_semantic_scholar (resp : Except String (HttpResp SSJson)) : List RawPaper :=
  match ss_body resp with
  | Except.ok ps => ps
  | Except.error _ => []

/-- An Atom feed `entry`: each child element's text, `none` when
`entry.find(...)` returns no element (or the element has no text). -/
structure AtomEntry where
  title : Option String := none
  summary : Option String := none
  id : Option String := none
  published : Option String := none

/-- `.text` on the result of `find`: raises `AttributeError` when `find`
returned `None`. -/
def textOf (e : Option String) : Except String String :=
  match e with
  | some t => Except.ok t
  | none => Except.error "AttributeError: NoneType object has no attribute text"

/-- A Python whitespace character (the ASCII fragment of `str.strip`'s
default set, which suffices for every string handled here). -/
def isPySpace (c : Char) : Bool :=
  c == ' ' || c == '\t' || c == '\n' || c == '\r' || c == '\x0b' || c == '\x0c'

/-- Python `str.strip()`: drop whitespace from both ends. -/
def pyStrip (cs : List Char) : List Char :=
  ((cs.dropWhile isPySpace).reverse.dropWhile isPySpace).reverse

def pyStripStr (s : String) : String := String.mk (pyStrip s.data)

/-- All of the given positions hold digit characters. -/
def digitsAt (cs : List Char) (l : List Nat) : Bool :=
  l.all (fun i => (cs.getD i ' ').isDigit)

/-- The decimal value of `n` characters starting at position `i`. -/
def numAt (cs : List Char) (i n : Nat) : Nat :=
  ((cs.drop i).take n).foldl (fun a c => 10 * a + (c.toNat - 48)) 0

/-- `datetime.strptime(published, "%Y-%m-%dT%H:%M:%SZ").year` (line 97):
validates the fixed shape and the field ranges and returns the year;
raises `ValueError` otherwise.  (Day-of-month versus month validation is
not modelled; no claim depends on it.) -/
def strptimeYear (s : String) : Except String Int :=
  let cs := s.data
  if cs.length == 20
      && digitsAt cs [0, 1, 2, 3, 5, 6, 8, 9, 11, 12, 14, 15, 17, 18]
      && cs.getD 4 ' ' == '-' && cs.getD 7 ' ' == '-' && cs.getD 10 ' ' == 'T'
      && cs.getD 13 ' ' == ':' && cs.getD 16 ' ' == ':' && cs.getD 19 ' ' == 'Z'
      && decide (1 ≤ numAt cs 5 2) && decide (numAt cs 5 2 ≤ 12)
      && decide (1 ≤ numAt cs 8 2) && decide (numAt cs 8 2 ≤ 31)
      && decide (numAt cs 11 2 ≤ 23) && decide (numAt cs 14 2 ≤ 59)
      && decide (numAt cs 17 2 ≤ 61) then
    Except.ok (numAt cs 0 4 : Int)
  else
    Except.error "ValueError: time data does not match format"

/-- One Atom `entry` mapped to a paper (lines 93-98): `.text.strip()` on
title, summary and id (raising when the element is missing), `.text` on
`published`, then the timestamp parse.  Any failure aborts the whole
`try` block — this loop has no per-entry isolation. -/
def arxiv_entry (e : AtomEntry) : Except String RawPaper := do
  let t ← textOf e.title
  let ab ← textOf e.summary
  let u ← textOf e.id
  let pub ← textOf e.published
  let y ← strptimeYear pub
  pure { title := some (pyStripStr t), abstract := some (pyStripStr ab),
         url := some (pyStripStr u), year := some y }

/-- The `try` block of `search_arxiv` (lines 87-99): GET, `raise_for_status`,
XML parse (the body's outcome), then the entry loop. -/
def arxiv_body (resp : Except String (HttpResp (List AtomEntry))) :
    Except String (List RawPaper) := do
  let r ← resp
  raise_for_status r.status
  let entries ← r.body
  entries.mapM arxiv_entry

/-- `search_arxiv` (lines 83-102): the `try` block with
`except Exception: return []`. -/
def search_arxiv (resp : Except String (HttpResp (List AtomEntry))) : List RawPaper :=
  match arxiv_body resp with
  | Except.ok ps => ps
  | Except.error _ => []

/-- A fetched `PubmedArticle`: the text of each element of interest,
`none` when `article.find(...)` returns no element. -/
structure PubmedArticle where
  pmid : Option String := none
  articleTitle : Option String := none
  abstractText : Option String := none
  pubDateYear : Option String := none
deriving DecidableEq, Repr

/-- The digits' value. -/
def digitsToNat (ds : List Char) : Nat :=
  ds.foldl (fun a c => 10 * a + (c.toNat - 48)) 0

/-- Python `int(s)` on a string: optional surrounding whitespace, an
optional sign, then one or more digits; raises `ValueError` otherwise.
(Underscore digit grouping is not modelled.) -/
def pyInt (s : String) : Except String Int :=
  let core := pyStrip s.data
  let signAndDigits : Int × List Char :=
    match core with
    | '+' :: rest => (1, rest)
    | '-' :: rest => (-1, rest)
    | rest => (1, rest)
  if !signAndDigits.2.isEmpty && signAndDigits.2.all Char.isDigit then
    Except.ok (signAndDigits.1 * (digitsToNat signAndDigits.2 : Int))
  else
    Except.error ("ValueError: invalid literal for int with base 10: " ++ s)

/-- Line 125: `int(date_elem.text) if date_elem is not None else None` —
the year is `None` when the `PubDate/Year` element is missing, and the
`int(...)` parse may raise. -/
def yearStep (o : Option String) : Except String (Option Int) :=
  match o with
  | some s => Except.map some (pyInt s)
  | none => Except.ok none

/-- The per-article loop of `search_pubmed` (lines 121-135).  The source
order is kept: `PubDate/Year` is parsed with `int(...)` (line 125) and
`PMID` is read with `.text` (line 126) *before* the title/abstract presence
check (line 127) that skips an article; an exception at any article aborts
the whole loop. -/
def pubmed_collect : List PubmedArticle → Except String (List RawPaper)
  | [] => Except.ok []
  | a :: rest => do
      let year : Option Int ← yearStep a.pubDateYear
      let pmid ← textOf a.pmid
      let tail ← pubmed_collect rest
      match a.articleTitle, a.abstractText with
      | some t, some ab =>
          Except.ok ({ title := some t, abstract := some ab,
                       url := some ("https://pubmed.ncbi.nlm.nih.gov/" ++ pmid ++ "/"),
                       year := year } :: tail)
      | _, _ => Except.ok tail

/-- The `try` block of `search_pubmed` (lines 106-135): the esearch GET and
its `idlist` (KeyError and JSON failures live in the body's outcome), the
early `[]` when no IDs, the efetch GET, XML parse, the article loop. -/
def pubmed_body
    (esearch : Except String (HttpResp (List String)))
    (efetch : Except String (HttpResp (List PubmedArticle))) :
    Except String (List RawPaper) := do
  let r1 ← esearch
  raise_for_status r1.status
  let ids ← r1.body
  if ids.isEmpty then
    pure []
  else do
    let r2 ← efetch
    raise_for_status r2.status
    let articles ← r2.body
    pubmed_collect articles

/-- `search_pubmed` (lines 104-138): the `try` block with
`except Exception: return []`. -/
def search_pubmed
    (esearch : Except String (HttpResp (List String)))
    (efetch : Except String (HttpResp (List PubmedArticle))) : List RawPaper :=
  match pubmed_body esearch efetch with
  | Except.ok ps => ps
  | Except.error _ => []

/-- A regex word character, Python `\w` (ASCII fragment): letter, digit or
underscore. -/
def isWordChar (c : Char) : Bool := c.isAlphanum || c == '_'

def wordOpt : Option Char → Bool
  | none => false
  | some c => isWordChar c

/-- `\b` between two neighbouring characters (`none` = edge of the string):
exactly one of the two sides is a word character. -/
def boundaryB (a b : Option Char) : Bool := wordOpt a != wordOpt b

/-- Case-insensitive prefix match of the keyword (made literal by
`re.escape`) against the rest of the text, as `(?i)` compares. -/
def matchCI : List Char → List Char → Bool
  | [], _ => true
  | _ :: _, [] => false
  | a :: as, b :: bs => (a.toLower == b.toLower) && matchCI as bs

/-- The replacement string of `highlight_keywords` (line 68), split around
the `\1` back-reference. -/
def reMarkL : List Char := "<span style='background-color: #ffff66'><b>".data

def reMarkR : List Char := "</b></span>".data

/-- Does `(?i)\b(w)\b` match at the current position?  `prev` is the
character just before the position (`none` at the start), `t` the rest of
the text.  (An empty keyword is modelled as matching nowhere; the app's
keywords come from `query.lower().split()` and are never empty.) -/
def canMatch (w : List Char) (prev : Option Char) (t : List Char) : Bool :=
  !w.isEmpty && matchCI w t && boundaryB prev t.head? &&
    boundaryB ((t.take w.length).getLast?) ((t.drop w.length).head?)

/-- One pass of `re.sub(rf"(?i)\b({re.escape(word)})\b", repl, text)`: scan
left to right over the original characters, wrap each leftmost match in the
markers (the `\1` group keeps the original casing), resume after it.  The
fuel (`≥ t.length` at every call from `subWord`) only makes the recursion
structural. -/
def subWordGo (w : List Char) : Nat → Option Char → List Char → List Char
  | 0, _, t => t
  | fuel + 1, prev, t =>
      if canMatch w prev t then
        reMarkL ++ t.take w.length ++ reMarkR ++
          subWordGo w fuel ((t.take w.length).getLast?) (t.drop w.length)
      else
        match t with
        | [] => []
        | c :: cs => c :: subWordGo w fuel (some c) cs

/-- `re.sub` of one keyword over the whole text. -/
def subWord (w t : List Char) : List Char := subWordGo w t.length none t

/-- `highlight_keywords` (lines 66-69): the keywords are substituted one
after the other, each pass running over the previous pass's output. -/
def highlight_keywords (text : String) (keywords : List String) : String :=
  keywords.foldl (fun t w => String.mk (subWord w.data t.data)) text

/-- There is a whole-word, case-insensitive occurrence of `w` somewhere in
`t`, `prev` being the character just before `t`: the notion of occurrence
the specification's highlighter contract speaks about. -/
def hasOcc (w : List Char) (prev : Option Char) : List Char → Bool
  | [] => false
  | c :: cs => canMatch w prev (c :: cs) || hasOcc w (some c) cs

/-- The outcome of one `main` submission: the empty-query warning, the
no-results warning (lines 162-164), or the ranked scored list. -/
inductive MainOutcome where
  | emptyQuery : MainOutcome
  | noResults : MainOutcome
  | results : List (ℚ × RawPaper) → MainOutcome
deriving DecidableEq

/-- The ranked list an outcome presents (empty for the two warning states). -/
def scoredOf : MainOutcome → List (ℚ × RawPaper)
  | MainOutcome.results l => l
  | _ => []

/-- The aggregation-and-ranking part of `main` (lines 159-174) as a function
of the three adapter result lists, the similarity abstracted as a score
function (cosine similarity of the fixed query embedding and the embedding
of the paper's "title. abstract" text is a pure function of the paper). -/
def runPipeline (start_year end_year : Int) (sim : RawPaper → ℚ)
    (ss ax pm : List RawPaper) : MainOutcome :=
  let filtered := aggregate ss ax pm start_year end_year
  if filtered.isEmpty then MainOutcome.noResults
  else MainOutcome.results (scoredList sim filtered)

/-- Lookup in an association-list cache. -/
def lookupA {κ ν : Type} [DecidableEq κ] : List (κ × ν) → κ → Option ν
  | [], _ => none
  | (k, v) :: rest, k0 => if k = k0 then some v else lookupA rest k0

/-- Modelled from the spec: `st.cache_data` (a third-party decorator, not in
the repository) "caches adapter outputs and embedding outputs keyed by
exact input parameters ... for the lifetime of the process/session".  A
call first consults the per-function cache; on a miss it runs the
underlying computation once — a network call for an adapter, a model run
for `embed_texts` — counts it (the third component) and stores the result. -/
def cachedCall {κ ν : Type} [DecidableEq κ] (f : κ → ν) (c : List (κ × ν)) (k : κ) :
    ν × List (κ × ν) × Nat :=
  match lookupA c k with
  | some v => (v, c, 0)
  | none => (f k, (k, f k) :: c, 1)

/-- An embedding vector (`model.encode` output row). -/
def Vec : Type := List ℚ

/-- The session's per-function caches: one per `st.cache_data`-decorated
function, keyed by that function's exact arguments. -/
structure Session where
  ssC : List ((String × Nat) × List RawPaper)
  axC : List ((String × Nat) × List RawPaper)
  pmC : List ((String × Nat) × List RawPaper)
  embC : List (List String × List Vec)

/-- What one submission produced: the outcome, the session caches after it,
and how many network calls and model runs it performed. -/
structure RunResult where
  outcome : MainOutcome
  sess : Session
  networkCalls : Nat
  modelRuns : Nat

/-- `f"{p['title']}. {p['abstract']}"` (line 166); Python renders `None`
as the string "None". -/
def pyStr (o : Option String) : String := o.getD "None"

def paperText (p : RawPaper) : String := pyStr p.title ++ ". " ++ pyStr p.abstract

/-- One submission of `main` (lines 144-174): validate the stripped query,
embed it (`embed_texts([query])[0]`), run the three cached searches,
aggregate, and — when papers survive — embed the paper texts and rank.
`fss`, `fax`, `fpm` are the underlying adapter computations for a
`(query, limit)` key (network access included) and `enc` the underlying
embedding model, deterministic for the session as the spec's caching
contract assumes; `sim` is `util.pytorch_cos_sim`.  Network calls and
model runs are counted through the cache misses that trigger them. -/
def runMain (user_input : String) (start_year end_year : Int) (num_results : Nat)
    (fss fax fpm : String × Nat → List RawPaper)
    (enc : List String → List Vec) (sim : Vec → Vec → ℚ)
    (s : Session) : RunResult :=
  if user_input.trim = "" then
    { outcome := MainOutcome.emptyQuery, sess := s, networkCalls := 0, modelRuns := 0 }
  else
    let query := user_input.trim
    let e1 := cachedCall enc s.embC [query]
    let idea := e1.1.headD []
    let r1 := cachedCall fss s.ssC (query, num_results)
    let r2 := cachedCall fax s.axC (query, num_results)
    let r3 := cachedCall fpm s.pmC (query, num_results)
    let filtered := aggregate r1.1 r2.1 r3.1 start_year end_year
    if filtered.isEmpty then
      { outcome := MainOutcome.noResults,
        sess := { ssC := r1.2.1, axC := r2.2.1, pmC := r3.2.1, embC := e1.2.1 },
        networkCalls := r1.2.2 + r2.2.2 + r3.2.2, modelRuns := e1.2.2 }
    else
      let texts := filtered.map paperText
      let e2 := cachedCall enc e1.2.1 texts
      let scored :=
        sortDesc (filtered.enum.map (fun ip => (sim idea (e2.1.getD ip.1 []), ip.2)))
      { outcome := MainOutcome.results scored,
        sess := { ssC := r1.2.1, axC := r2.2.1, pmC := r3.2.1, embC := e2.2.1 },
        networkCalls := r1.2.2 + r2.2.2 + r3.2.2, modelRuns := e1.2.2 + e2.2.2 }

/-- Side condition of the amended C5: the article has a `PMID` element and
its `PubDate/Year`, when present, parses as an integer — exactly the reads
`search_pubmed` performs before its title/abstract skip check. -/
def articleWellFormed (a : PubmedArticle) : Bool :=
  a.pmid.isSome &&
    (match a.pubDateYear with
     | some s => (pyInt s).isOk
     | none => true)

/-- A fetched article with no `PMID`, no `ArticleTitle`, no abstract. -/
def artBroken : PubmedArticle :=
  { pmid := none, articleTitle := none, abstractText := none, pubDateYear := none }

/-- A complete fetched article. -/
def artComplete : PubmedArticle :=
  { pmid := some "2", articleTitle := some "T", abstractText := some "A",
    pubDateYear := some "2020" }

/-- An article with a `PMID` but neither `ArticleTitle` nor abstract: the
skip check reaches it without an exception. -/
def artSkip : PubmedArticle :=
  { pmid := some "1", articleTitle := none, abstractText := none, pubDateYear := none }

theorem mem_insertDesc {α : Type} (x a : ℚ × α) (l : List (ℚ × α)) :
    a ∈ insertDesc x l ↔ a = x ∨ a ∈ l := by
  induction l with
  | nil => simp [insertDesc]
  | cons y ys ih =>
      by_cases h : y.1 ≤ x.1
      · simp [insertDesc, h]
      · simp [insertDesc, h, ih]
        tauto

theorem pairwise_insertDesc {α : Type} (x : ℚ × α) (l : List (ℚ × α))
    (hl : l.Pairwise (fun a b => b.1 ≤ a.1)) :
    (insertDesc x l).Pairwise (fun a b => b.1 ≤ a.1) := by
  induction l with
  | nil => simp [insertDesc]
  | cons y ys ih =>
      rcases List.pairwise_cons.mp hl with ⟨hy, hys⟩
      by_cases h : y.1 ≤ x.1
      · simp only [insertDesc, if_pos h]
        refine List.pairwise_cons.mpr ⟨?_, hl⟩
        intro b hb
        rcases List.mem_cons.mp hb with rfl | hb
        · exact h
        · exact le_trans (hy b hb) h
      · simp only [insertDesc, if_neg h]
        refine List.pairwise_cons.mpr ⟨?_, ih hys⟩
        intro b hb
        rcases (mem_insertDesc x b ys).mp hb with rfl | hb
        · exact le_of_not_le h
        · exact hy b hb

theorem pairwise_sortDesc {α : Type} (l : List (ℚ × α)) :
    (sortDesc l).Pairwise (fun a b => b.1 ≤ a.1) := by
  induction l with
  | nil => simp [sortDesc]
  | cons x xs ih => exact pairwise_insertDesc x (sortDesc xs) ih

theorem filter_insertDesc {α : Type} (x : ℚ × α) (l : List (ℚ × α)) (s : ℚ) :
    (insertDesc x l).filter (fun p => decide (p.1 = s)) =
      (x :: l).filter (fun p => decide (p.1 = s)) := by
  induction l with
  | nil => simp [insertDesc]
  | cons y ys ih =>
      by_cases h : y.1 ≤ x.1
      · simp [insertDesc, h]
      · have hxy : x.1 < y.1 := lt_of_not_le h
        have hstep : insertDesc x (y :: ys) = y :: insertDesc x ys := by
          simp [insertDesc, h]
        rw [hstep]
        by_cases hy : y.1 = s
        · have hx : ¬ x.1 = s := fun hx => ne_of_lt hxy (hx.trans hy.symm)
          simp [List.filter_cons, hy, hx, ih]
        · simp [List.filter_cons, hy, ih]

theorem filter_sortDesc {α : Type} (l : List (ℚ × α)) (s : ℚ) :
    (sortDesc l).filter (fun p => decide (p.1 = s)) =
      l.filter (fun p => decide (p.1 = s)) := by
  induction l with
  | nil => rfl
  | cons x xs ih =>
      calc (sortDesc (x :: xs)).filter (fun p => decide (p.1 = s))
          = (x :: sortDesc xs).filter (fun p => decide (p.1 = s)) :=
            filter_insertDesc x (sortDesc xs) s
        _ = (x :: xs).filter (fun p => decide (p.1 = s)) := by
            by_cases hx : x.1 = s <;> simp [List.filter, hx, ih]

/-- C1: for every collection of adapter outputs and every valid year range
(`start_year ≤ end_year`), every paper in the aggregator's output has a
non-null abstract and a present year lying in `[start_year, end_year]`;
a paper with absent abstract or absent year never appears in the output. -/
theorem C1_aggregate_invariant (ss ax pm : List RawPaper) (sy ey : Int)
    (hrange : sy ≤ ey) (p : RawPaper) :
    (p ∈ aggregate ss ax pm sy ey →
      p.abstract ≠ none ∧ ∃ y, p.year = some y ∧ sy ≤ y ∧ y ≤ ey)
    ∧ ((p.abstract = none ∨ p.year = none) → p ∉ aggregate ss ax pm sy ey) := by
  constructor
  · intro hp
    have hk : keepPaper sy ey p = true := List.of_mem_filter hp
    rcases hpa : p.abstract with _ | a <;> rcases hpy : p.year with _ | y <;>
      simp [keepPaper, hpa, hpy] at hk
    refine ⟨by simp [hpa], y, rfl, ?_, ?_⟩ <;> tauto
  · intro habs hp
    have hk : keepPaper sy ey p = true := List.of_mem_filter hp
    rcases habs with habs | habs <;> simp [keepPaper, habs] at hk

theorem C1_aggregate_invariant_witness :
    (({ abstract := some "A", year := some 2020 } : RawPaper) ∈
        aggregate [{ abstract := some "A", year := some 2020 }] [] [] 2000 2024 →
      ({ abstract := some "A", year := some 2020 } : RawPaper).abstract ≠ none ∧
        ∃ y, ({ abstract := some "A", year := some 2020 } : RawPaper).year = some y ∧
          2000 ≤ y ∧ y ≤ 2024)
    ∧ ((({ abstract := some "A", year := some 2020 } : RawPaper).abstract = none ∨
          ({ abstract := some "A", year := some 2020 } : RawPaper).year = none) →
        ({ abstract := some "A", year := some 2020 } : RawPaper) ∉
          aggregate [{ abstract := some "A", year := some 2020 }] [] [] 2000 2024) :=
  C1_aggregate_invariant [{ abstract := some "A", year := some 2020 }] [] []
    2000 2024 (by decide) { abstract := some "A", year := some 2020 }

/-- C2: the ranked result is sorted in descending order of similarity — in
particular every adjacent pair `(s1,_), (s2,_)` has `s1 ≥ s2` — and the sort
is stable: for every similarity value, the papers carrying it appear in the
output in their relative order from the (concatenated) input list. -/
theorem C2_rank_sorted_stable {α : Type} (sim : α → ℚ) (papers : List α) :
    (scoredList sim papers).Pairwise (fun a b => b.1 ≤ a.1)
    ∧ ∀ s : ℚ, (scoredList sim papers).filter (fun x => decide (x.1 = s)) =
        (papers.map (fun p => (sim p, p))).filter (fun x => decide (x.1 = s)) :=
  ⟨pairwise_sortDesc _, fun s => filter_sortDesc _ s⟩

/-- C3: for each of the three source adapters, whenever the `try` block
(fetch plus parse) raises, the exception is caught at the adapter boundary
and the call returns the empty list — it never propagates to the caller
(the adapters are total functions of the fetch outcome). -/
theorem C3_adapters_catch_all :
    (∀ (resp : Except String (HttpResp SSJson)) (e : String),
        ss_body resp = Except.error e → search_semantic_scholar resp = [])
    ∧ (∀ (resp : Except String (HttpResp (List AtomEntry))) (e : String),
        arxiv_body resp = Except.error e → search_arxiv resp = [])
    ∧ (∀ (r1 : Except String (HttpResp (List String)))
        (r2 : Except String (HttpResp (List PubmedArticle))) (e : String),
        pubmed_body r1 r2 = Except.error e → search_pubmed r1 r2 = []) := by
  refine ⟨fun resp e h => ?_, fun resp e h => ?_, fun r1 r2 e h => ?_⟩
  · simp [search_semantic_scholar, h]
  · simp [search_arxiv, h]
  · simp [search_pubmed, h]

theorem C3_adapters_catch_all_witness :
    search_semantic_scholar (Except.error "ConnectionError") = []
    ∧ search_arxiv (Except.error "ReadTimeout") = []
    ∧ search_pubmed (Except.error "HTTPError") (Except.error "HTTPError") = [] :=
  ⟨C3_adapters_catch_all.1 _ "ConnectionError" rfl,
   C3_adapters_catch_all.2.1 _ "ReadTimeout" rfl,
   C3_adapters_catch_all.2.2 _ _ "HTTPError" rfl⟩

/-- C4: if all three adapters return empty lists, the pipeline reaches the
distinct "no results" state, whose ranked output is empty; being a total
function, it raises nothing. -/
theorem C4_all_empty_no_results (sy ey : Int) (sim : RawPaper → ℚ) :
    runPipeline sy ey sim [] [] [] = MainOutcome.noResults
    ∧ scoredOf (runPipeline sy ey sim [] [] []) = [] :=
  ⟨rfl, rfl⟩

/-- C7: the highlighter applied with an empty keyword list is the identity. -/
theorem C7_highlight_no_keywords (text : String) :
    highlight_keywords text [] = text := rfl

/-- C10: the aggregation filter tests abstract and year by Python
truthiness, not presence: a record whose abstract is `""`, or whose year
is `0`, is dropped exactly as if the field were absent. -/
theorem C10_truthiness_filter (ss ax pm : List RawPaper) (sy ey : Int) (p : RawPaper) :
    (p.abstract = some "" →
      keepPaper sy ey p = false ∧
      keepPaper sy ey { p with abstract := none } = false ∧
      p ∉ aggregate ss ax pm sy ey)
    ∧ (p.year = some 0 →
      keepPaper sy ey p = false ∧
      keepPaper sy ey { p with year := none } = false ∧
      p ∉ aggregate ss ax pm sy ey) := by
  constructor
  · intro ha
    refine ⟨?_, ?_, ?_⟩
    · rcases hpy : p.year with _ | y <;> simp [keepPaper, ha, hpy]
    · simp [keepPaper]
    · intro hp
      have hk : keepPaper sy ey p = true := List.of_mem_filter hp
      rcases hpy : p.year with _ | y <;> simp [keepPaper, ha, hpy] at hk
  · intro hy
    refine ⟨?_, ?_, ?_⟩
    · rcases hpa : p.abstract with _ | a <;> simp [keepPaper, hpa, hy]
    · rcases hpa : p.abstract with _ | a <;> simp [keepPaper, hpa]
    · intro hp
      have hk : keepPaper sy ey p = true := List.of_mem_filter hp
      rcases hpa : p.abstract with _ | a <;> simp [keepPaper, hpa, hy] at hk

theorem C10_truthiness_filter_witness :
    (({ abstract := some "", year := some 2020 } : RawPaper).abstract = some "" →
      keepPaper 2000 2024 { abstract := some "", year := some 2020 } = false ∧
      keepPaper 2000 2024
        { ({ abstract := some "", year := some 2020 } : RawPaper) with
          abstract := none } = false ∧
      ({ abstract := some "", year := some 2020 } : RawPaper) ∉
        aggregate [{ abstract := some "", year := some 2020 }] [] [] 2000 2024)
    ∧ (({ abstract := some "", year := some 2020 } : RawPaper).year = some 0 →
      keepPaper 2000 2024 { abstract := some "", year := some 2020 } = false ∧
      keepPaper 2000 2024
        { ({ abstract := some "", year := some 2020 } : RawPaper) with
          year := none } = false ∧
      ({ abstract := some "", year := some 2020 } : RawPaper) ∉
        aggregate [{ abstract := some "", year := some 2020 }] [] [] 2000 2024) :=
  C10_truthiness_filter [{ abstract := some "", year := some 2020 }] [] []
    2000 2024 { abstract := some "", year := some 2020 }

theorem pubmed_collect_cons (b : PubmedArticle) (rest : List PubmedArticle) :
    pubmed_collect (b :: rest) =
      (yearStep b.pubDateYear).bind (fun year =>
        (textOf b.pmid).bind (fun pmid =>
          (pubmed_collect rest).bind (fun tail =>
            match b.articleTitle, b.abstractText with
            | some t, some ab =>
                Except.ok ({ title := some t, abstract := some ab,
                             url := some ("https://pubmed.ncbi.nlm.nih.gov/" ++ pmid ++ "/"),
                             year := year } :: tail)
            | _, _ => Except.ok tail))) := rfl

/-- The article loop aborts with the exception raised at the first malformed
article: a missing `PMID` element or a non-integer `PubDate/Year` text. -/
theorem pubmed_collect_error (articles : List PubmedArticle) (a : PubmedArticle)
    (ha : a ∈ articles)
    (hbad : a.pmid = none ∨ ∃ s, a.pubDateYear = some s ∧ (pyInt s).isOk = false) :
    ∃ e, pubmed_collect articles = Except.error e := by
  induction articles with
  | nil => cases ha
  | cons b rest ih =>
      rw [pubmed_collect_cons]
      rcases List.mem_cons.mp ha with rfl | hmem
      · rcases hbad with hpmid | ⟨s, hs, hbadInt⟩
        · cases hy : yearStep a.pubDateYear with
          | error e => exact ⟨e, by simp [hy, Except.bind]⟩
          | ok yv =>
              refine ⟨"AttributeError: NoneType object has no attribute text", ?_⟩
              simp [hy, hpmid, textOf, Except.bind]
        · have hyerr : ∃ e, yearStep a.pubDateYear = Except.error e := by
            cases hpi : pyInt s with
            | error e => exact ⟨e, by simp [yearStep, hs, hpi, Except.map]⟩
            | ok n => rw [hpi] at hbadInt; simp [Except.isOk, Except.toBool] at hbadInt
          rcases hyerr with ⟨e, hy⟩
          exact ⟨e, by simp [hy, Except.bind]⟩
      · cases hy : yearStep b.pubDateYear with
        | error e => exact ⟨e, by simp [hy, Except.bind]⟩
        | ok yv =>
            cases hp : textOf b.pmid with
            | error e => exact ⟨e, by simp [hy, hp, Except.bind]⟩
            | ok pv =>
                rcases ih hmem with ⟨e, hr⟩
                exact ⟨e, by simp [hy, hp, hr, Except.bind]⟩

/-- C9: in the PubMed adapter the `PMID` read and the `int` parse of
`PubDate/Year` happen before the title/abstract skip check, so one fetched
article lacking a `PMID` (or carrying a non-integer `PubDate/Year`) raises,
the exception is caught at the adapter boundary, and the whole fetch
degrades to the empty list — every article of the fetch is discarded, not
just the malformed one. -/
theorem C9_pubmed_malformed_discards_all (ids : List String)
    (articles : List PubmedArticle) (a : PubmedArticle) (ha : a ∈ articles)
    (hbad : a.pmid = none ∨ ∃ s, a.pubDateYear = some s ∧ (pyInt s).isOk = false) :
    search_pubmed (Except.ok { status := 200, body := Except.ok ids })
      (Except.ok { status := 200, body := Except.ok articles }) = [] := by
  rcases pubmed_collect_error articles a ha hbad with ⟨e, hcol⟩
  cases ids with
  | nil => rfl
  | cons i is =>
      have hbody : pubmed_body (Except.ok { status := 200, body := Except.ok (i :: is) })
          (Except.ok { status := 200, body := Except.ok articles })
          = pubmed_collect articles := rfl
      simp [search_pubmed, hbody, hcol]

theorem C9_pubmed_malformed_discards_all_witness :
    search_pubmed (Except.ok { status := 200, body := Except.ok ["1", "2"] })
      (Except.ok { status := 200, body := Except.ok [artBroken, artComplete] }) = [] :=
  C9_pubmed_malformed_discards_all ["1", "2"] [artBroken, artComplete] artBroken
    (by decide) (Or.inl rfl)

/-- C5 counterexample: a fetch holding one article that lacks `ArticleTitle`
and `Abstract/AbstractText` (and, as malformed records may, a `PMID`) next
to one complete article.  The claim as stated expects the incomplete
article to be silently skipped and the complete one still returned; the
code instead reads `.text` of the missing `PMID` before the skip check, the
`AttributeError` reaches the adapter boundary, and the whole fetch returns
`[]`. -/
theorem C5_counterexample :
    search_pubmed (Except.ok { status := 200, body := Except.ok ["1", "2"] })
        (Except.ok { status := 200, body := Except.ok [artBroken, artComplete] }) = []
    ∧ search_pubmed (Except.ok { status := 200, body := Except.ok ["1", "2"] })
        (Except.ok { status := 200, body := Except.ok [artBroken, artComplete] })
      ≠ [{ title := some "T", abstract := some "A",
           url := some "https://pubmed.ncbi.nlm.nih.gov/2/", year := some 2020 }] := by
  constructor <;> decide

/-- The article loop on well-formed articles: skip those missing title or
abstract, map the rest. -/
theorem pubmed_collect_ok (articles : List PubmedArticle)
    (hok : ∀ a ∈ articles, articleWellFormed a = true) :
    pubmed_collect articles = Except.ok (articles.filterMap (fun a =>
      match a.articleTitle, a.abstractText with
      | some t, some ab =>
          some { title := some t, abstract := some ab,
                 url := some ("https://pubmed.ncbi.nlm.nih.gov/" ++ a.pmid.getD "" ++ "/"),
                 year := a.pubDateYear.bind (fun s => (pyInt s).toOption) }
      | _, _ => none)) := by
  induction articles with
  | nil => rfl
  | cons b rest ih =>
      have hb := hok b (List.mem_cons_self b rest)
      simp only [articleWellFormed, Bool.and_eq_true] at hb
      obtain ⟨p, hp⟩ : ∃ p, b.pmid = some p := Option.isSome_iff_exists.mp hb.1
      have hrest := ih (fun a haa => hok a (List.mem_cons_of_mem b haa))
      rw [pubmed_collect_cons, hrest]
      cases hpd : b.pubDateYear with
      | none =>
          rcases ht : b.articleTitle with _ | t <;>
            rcases hab : b.abstractText with _ | ab <;>
            simp [yearStep, hpd, textOf, hp, Except.bind, List.filterMap_cons, ht, hab]
      | some s =>
          rw [hpd] at hb
          simp only [Except.isOk, Except.toBool] at hb
          obtain ⟨n, hn⟩ : ∃ n, pyInt s = Except.ok n := by
            cases hpi : pyInt s with
            | error e => rw [hpi] at hb; simp at hb
            | ok n => exact ⟨n, rfl⟩
          rcases ht : b.articleTitle with _ | t <;>
            rcases hab : b.abstractText with _ | ab <;>
            simp [yearStep, hpd, hn, textOf, hp, Except.bind, Except.map,
              Except.toOption, List.filterMap_cons, ht, hab]

/-- C5 amended (the counterexample forces the side condition): provided
every article of the fetch has a `PMID` element and a `PubDate/Year` that
is absent or an integer string, every fetched article lacking an
`ArticleTitle` or an `Abstract/AbstractText` is silently skipped while the
remaining articles of the same fetch are still returned, and each returned
article's year is taken from `PubDate/Year` when present and left `None`
otherwise. -/
theorem C5_amended_pubmed_mapping (ids : List String)
    (articles : List PubmedArticle) (hids : ids ≠ [])
    (hok : ∀ a ∈ articles, articleWellFormed a = true) :
    search_pubmed (Except.ok { status := 200, body := Except.ok ids })
      (Except.ok { status := 200, body := Except.ok articles })
    = articles.filterMap (fun a =>
        match a.articleTitle, a.abstractText with
        | some t, some ab =>
            some { title := some t, abstract := some ab,
                   url := some ("https://pubmed.ncbi.nlm.nih.gov/" ++ a.pmid.getD "" ++ "/"),
                   year := a.pubDateYear.bind (fun s => (pyInt s).toOption) }
        | _, _ => none) := by
  cases ids with
  | nil => exact absurd rfl hids
  | cons i is =>
      have hbody : pubmed_body (Except.ok { status := 200, body := Except.ok (i :: is) })
          (Except.ok { status := 200, body := Except.ok articles })
          = pubmed_collect articles := rfl
      simp [search_pubmed, hbody, pubmed_collect_ok articles hok]

theorem C5_amended_pubmed_mapping_witness :
    search_pubmed (Except.ok { status := 200, body := Except.ok ["1", "2"] })
      (Except.ok { status := 200, body := Except.ok [artSkip, artComplete] })
    = [{ title := some "T", abstract := some "A",
         url := some "https://pubmed.ncbi.nlm.nih.gov/2/", year := some 2020 }] :=
  (C5_amended_pubmed_mapping ["1", "2"] [artSkip, artComplete]
    (by decide) (by decide)).trans (by decide)

theorem matchCI_length (w : List Char) : ∀ t, matchCI w t = true → w.length ≤ t.length := by
  induction w with
  | nil => intro t _; simp
  | cons a as ih =>
      intro t h
      cases t with
      | nil => simp [matchCI] at h
      | cons b bs =>
          simp only [matchCI, Bool.and_eq_true] at h
          simpa using Nat.succ_le_succ (ih bs h.2)

theorem canMatch_nil (w : List Char) (prev : Option Char) : canMatch w prev [] = false := by
  cases w <;> simp [canMatch, matchCI]

theorem canMatch_length (w : List Char) (prev : Option Char) (t : List Char)
    (h : canMatch w prev t = true) : 1 ≤ w.length ∧ w.length ≤ t.length := by
  simp only [canMatch, Bool.and_eq_true] at h
  obtain ⟨⟨⟨hne, hm⟩, _⟩, _⟩ := h
  constructor
  · cases w with
    | nil => simp at hne
    | cons a as => simp
  · exact matchCI_length w t hm

theorem subWordGo_length (w : List Char) :
    ∀ (fuel : Nat) (prev : Option Char) (t : List Char), t.length ≤ fuel →
      t.length ≤ (subWordGo w fuel prev t).length := by
  intro fuel
  induction fuel with
  | zero => intro prev t h; simp [subWordGo]
  | succ f ih =>
      intro prev t ht
      by_cases hc : canMatch w prev t = true
      · simp only [subWordGo, if_pos hc]
        obtain ⟨hw1, hwt⟩ := canMatch_length w prev t hc
        have hrec := ih ((t.take w.length).getLast?) (t.drop w.length)
          (by simp only [List.length_drop]; omega)
        simp only [List.length_append, List.length_take, List.length_drop] at hrec ⊢
        omega
      · simp only [subWordGo, if_neg hc]
        cases t with
        | nil => simp
        | cons c cs =>
            have := ih (some c) cs (by simpa using Nat.succ_le_succ_iff.mp ht)
            simpa using Nat.succ_le_succ this

theorem subWordGo_no_occ (w : List Char) :
    ∀ (fuel : Nat) (prev : Option Char) (t : List Char), t.length ≤ fuel →
      hasOcc w prev t = false → subWordGo w fuel prev t = t := by
  intro fuel
  induction fuel with
  | zero =>
      intro prev t h _
      have ht : t = [] := List.length_eq_zero.mp (Nat.le_zero.mp h)
      subst ht; rfl
  | succ f ih =>
      intro prev t ht ho
      cases t with
      | nil => simp [subWordGo, canMatch_nil]
      | cons c cs =>
          simp only [hasOcc, Bool.or_eq_false_iff] at ho
          simp only [subWordGo, if_neg (by simp [ho.1] : ¬ canMatch w prev (c :: cs) = true)]
          rw [ih (some c) cs (by simpa using Nat.succ_le_succ_iff.mp ht) ho.2]

theorem subWordGo_occ_ne (w : List Char) :
    ∀ (fuel : Nat) (prev : Option Char) (t : List Char), t.length ≤ fuel →
      hasOcc w prev t = true → subWordGo w fuel prev t ≠ t := by
  intro fuel
  induction fuel with
  | zero =>
      intro prev t h ho
      have ht : t = [] := List.length_eq_zero.mp (Nat.le_zero.mp h)
      subst ht; simp [hasOcc] at ho
  | succ f ih =>
      intro prev t ht ho
      cases t with
      | nil => simp [hasOcc] at ho
      | cons c cs =>
          by_cases hc : canMatch w prev (c :: cs) = true
          · simp only [subWordGo, if_pos hc]
            intro heq
            have hlen := congrArg List.length heq
            obtain ⟨hw1, hwt⟩ := canMatch_length w prev (c :: cs) hc
            simp only [List.length_cons] at ht
            have hrec := subWordGo_length w f (((c :: cs).take w.length).getLast?)
              ((c :: cs).drop w.length)
              (by simp only [List.length_drop, List.length_cons]; omega)
            have hmarkL : 0 < reMarkL.length := by decide
            simp only [List.length_append, List.length_take, List.length_drop,
              List.length_cons] at hlen hrec hwt
            omega
          · simp only [hasOcc, Bool.or_eq_true] at ho
            rcases ho with ho | ho
            · exact absurd ho hc
            · simp only [subWordGo, if_neg hc]
              intro heq
              injection heq with h1 h2
              exact ih (some c) cs (by simpa using Nat.succ_le_succ_iff.mp ht) ho h2

theorem subWord_eq_iff (w t : List Char) :
    subWord w t = t ↔ hasOcc w none t = false := by
  constructor
  · intro h
    cases ho : hasOcc w none t with
    | false => rfl
    | true => exact absurd h (subWordGo_occ_ne w t.length none t le_rfl ho)
  · intro h
    exact subWordGo_no_occ w t.length none t le_rfl h

theorem highlight_no_occ : ∀ (keywords : List String) (t : String),
    (∀ w ∈ keywords, hasOcc w.data none t.data = false) →
    highlight_keywords t keywords = t
  | [], _, _ => rfl
  | w :: ks, t, h => by
      have hw : subWord w.data t.data = t.data :=
        subWordGo_no_occ w.data t.data.length none t.data le_rfl
          (h w (List.mem_cons_self w ks))
      calc highlight_keywords t (w :: ks)
          = highlight_keywords (String.mk (subWord w.data t.data)) ks := rfl
        _ = highlight_keywords t ks := by rw [hw]
        _ = t := highlight_no_occ ks t (fun w' hw' => h w' (List.mem_cons_of_mem w hw'))

/-- C6 counterexample: with text `"a"` and keywords `["a", "b"]`, the only
case-insensitive whole-word occurrence of a keyword in the text is the
single `"a"` (`"b"` occurs nowhere in it), so wrapping exactly the
occurrences would give the marked-up `"a"` and nothing else.  The code
substitutes the keywords sequentially, and the second pass matches the
`b` of the `<b>` and `</b>` tags inserted by the first pass (they are
flanked by the non-word characters `<`, `>` and `/`), so the output also
wraps text that is no occurrence of any keyword in the input. -/
theorem C6_counterexample :
    hasOcc "b".data none "a".data = false
    ∧ highlight_keywords "a" ["a", "b"]
        ≠ String.mk (reMarkL ++ "a".data ++ reMarkR) := by
  constructor
  · decide
  · decide

/-- C6 amended (the counterexample forces the restriction to a single
pass): one substitution pass over a text is the identity exactly when its
keyword has no case-insensitive whole-word occurrence there — in
particular a keyword never matches inside a longer word, so `"learn"`
leaves a text containing only `"learning"` unchanged, while a whole-word
occurrence does get wrapped in the emphasis markers.  With several
keywords the passes run sequentially over already-marked text, so a later
keyword may additionally match inside markup inserted by an earlier pass;
when no keyword has a whole-word occurrence in the text, the highlighter
is still the identity. -/
theorem C6_amended_whole_word :
    (∀ w t : String, String.mk (subWord w.data t.data) = t
      ↔ hasOcc w.data none t.data = false)
    ∧ (∀ (keywords : List String) (t : String),
        (∀ w ∈ keywords, hasOcc w.data none t.data = false) →
        highlight_keywords t keywords = t)
    ∧ highlight_keywords "learning" ["learn"] = "learning"
    ∧ highlight_keywords "They researched deep learning" ["learn", "deep"]
      = "They researched <span style='background-color: #ffff66'><b>deep</b></span> learning" := by
  refine ⟨fun w t => ?_, highlight_no_occ, by decide, by decide⟩
  cases t with
  | mk cs =>
      constructor
      · intro h
        exact (subWord_eq_iff w.data cs).mp (by simpa using congrArg String.data h)
      · intro h
        exact congrArg String.mk ((subWord_eq_iff w.data cs).mpr h)

theorem C6_amended_whole_word_witness :
    highlight_keywords "relearning learns" ["learn"] = "relearning learns" :=
  C6_amended_whole_word.2.1 ["learn"] "relearning learns" (by decide)

theorem lookupA_cachedCall_self {κ ν : Type} [DecidableEq κ] (f : κ → ν)
    (c : List (κ × ν)) (k : κ) :
    lookupA (cachedCall f c k).2.1 k = some (cachedCall f c k).1 := by
  unfold cachedCall
  cases h : lookupA c k with
  | some v => simpa using h
  | none => simp [lookupA]

theorem lookupA_cachedCall_pres {κ ν : Type} [DecidableEq κ] (f : κ → ν)
    (c : List (κ × ν)) (k k0 : κ) (v : ν) (h : lookupA c k0 = some v) :
    lookupA (cachedCall f c k).2.1 k0 = some v := by
  unfold cachedCall
  cases hk : lookupA c k with
  | some w => simpa using h
  | none =>
      simp only [lookupA]
      by_cases hkk : k = k0
      · subst hkk; simp [h] at hk
      · simp [hkk, h]

theorem cachedCall_hit {κ ν : Type} [DecidableEq κ] (f : κ → ν)
    (c : List (κ × ν)) (k : κ) (v : ν) (h : lookupA c k = some v) :
    cachedCall f c k = (v, c, 0) := by
  unfold cachedCall; rw [h]

/-- C8: within one session, submitting the same query with identical
parameters a second time hits the per-function caches (keyed by the exact
arguments), so it triggers no network call and no model run, and returns
the identical ranked outcome. -/
theorem C8_repeat_query_cached (user_input : String) (sy ey : Int) (n : Nat)
    (fss fax fpm : String × Nat → List RawPaper)
    (enc : List String → List Vec) (sim : Vec → Vec → ℚ) (s : Session) :
    (runMain user_input sy ey n fss fax fpm enc sim
        (runMain user_input sy ey n fss fax fpm enc sim s).sess).outcome
      = (runMain user_input sy ey n fss fax fpm enc sim s).outcome
    ∧ (runMain user_input sy ey n fss fax fpm enc sim
        (runMain user_input sy ey n fss fax fpm enc sim s).sess).networkCalls = 0
    ∧ (runMain user_input sy ey n fss fax fpm enc sim
        (runMain user_input sy ey n fss fax fpm enc sim s).sess).modelRuns = 0 := by
  by_cases hq : user_input.trim = ""
  · simp [runMain, hq]
  · by_cases hemp : (aggregate (cachedCall fss s.ssC (user_input.trim, n)).1
        (cachedCall fax s.axC (user_input.trim, n)).1
        (cachedCall fpm s.pmC (user_input.trim, n)).1 sy ey).isEmpty = true
    · simp only [runMain, if_neg hq]
      rw [if_pos hemp]
      dsimp only
      have h1 := cachedCall_hit enc _ _ _ (lookupA_cachedCall_self enc s.embC [user_input.trim])
      have h2 := cachedCall_hit fss _ _ _ (lookupA_cachedCall_self fss s.ssC (user_input.trim, n))
      have h3 := cachedCall_hit fax _ _ _ (lookupA_cachedCall_self fax s.axC (user_input.trim, n))
      have h4 := cachedCall_hit fpm _ _ _ (lookupA_cachedCall_self fpm s.pmC (user_input.trim, n))
      simp only [h1, h2, h3, h4]
      rw [if_pos hemp]
      exact ⟨rfl, rfl, rfl⟩
    · simp only [runMain, if_neg hq]
      rw [if_neg hemp]
      dsimp only
      have h2 := cachedCall_hit fss _ _ _ (lookupA_cachedCall_self fss s.ssC (user_input.trim, n))
      have h3 := cachedCall_hit fax _ _ _ (lookupA_cachedCall_self fax s.axC (user_input.trim, n))
      have h4 := cachedCall_hit fpm _ _ _ (lookupA_cachedCall_self fpm s.pmC (user_input.trim, n))
      have h1 := cachedCall_hit enc _ _ _
        (lookupA_cachedCall_pres enc (cachedCall enc s.embC [user_input.trim]).2.1
          ((aggregate (cachedCall fss s.ssC (user_input.trim, n)).1
            (cachedCall fax s.axC (user_input.trim, n)).1
            (cachedCall fpm s.pmC (user_input.trim, n)).1 sy ey).map paperText)
          [user_input.trim] (cachedCall enc s.embC [user_input.trim]).1
          (lookupA_cachedCall_self enc s.embC [user_input.trim]))
      have h5 := cachedCall_hit enc _ _ _
        (lookupA_cachedCall_self enc (cachedCall enc s.embC [user_input.trim]).2.1
          ((aggregate (cachedCall fss s.ssC (user_input.trim, n)).1
            (cachedCall fax s.axC (user_input.trim, n)).1
            (cachedCall fpm s.pmC (user_input.trim, n)).1 sy ey).map paperText))
      simp only [h1, h2, h3, h4]
      rw [if_neg hemp]
      simp [h5]
